import Mathlib

/-
Verification of the financial calculation engine of `n8n-nodes-ethena`.

The engine consists of four stateless calculation modules:
  * `src/nodes/Ethena/utils/yieldUtils.ts`    -- APR/APY conversions, earnings
  * `src/nodes/Ethena/utils/pointsUtils.ts`   -- Sats rewards, tiers, percentile
  * `src/nodes/Ethena/utils/cooldownUtils.ts` -- unstaking cooldown status
  * `src/nodes/Ethena/EthenaTrigger.node.ts`  -- liquidation price, counterparty risk

JavaScript numbers are embedded as exact arithmetic: the yield module (which
uses fractional powers, `Math.pow(x, 1/365)`) over `ℝ`, the remaining modules
(field arithmetic, comparisons, floor/round) over `ℚ`/`ℤ`.  Functions reading
the ambient clock (`Date.now()`, `new Date()`) take the clock value as an
explicit final parameter, the standard state-passing embedding of that read.
-/

/-- JavaScript division, embedded with its zero-divisor behaviour made
explicit: `none` models the non-finite IEEE results (`NaN` for `0/0`,
`±Infinity` otherwise) produced when the divisor is `0`; `some (a / b)` is
the quotient otherwise. -/
def jsDiv {α : Type} [Div α] [Zero α] [DecidableEq α] (a b : α) : Option α :=
  if b = 0 then none else some (a / b)

namespace YieldUtils

/-- `aprToApy` from `yieldUtils.ts`:
`Math.pow(1 + apr / compoundingPeriods, compoundingPeriods) - 1`. -/
noncomputable def aprToApy (apr : ℝ) (compoundingPeriods : ℕ := 365) : ℝ :=
  (1 + apr / compoundingPeriods) ^ (compoundingPeriods : ℝ) - 1

/-- `apyToApr` from `yieldUtils.ts`:
`compoundingPeriods * (Math.pow(1 + apy, 1 / compoundingPeriods) - 1)`. -/
noncomputable def apyToApr (apy : ℝ) (compoundingPeriods : ℕ := 365) : ℝ :=
  compoundingPeriods * ((1 + apy) ^ ((1 : ℝ) / compoundingPeriods) - 1)

/-- Return shape of `calculateEarnings`.  `dailyEarnings` is `earnings / days`
computed by JavaScript division, hence an `Option`: `none` is the non-finite
value produced when `days = 0`. -/
structure EarningsResult where
  finalAmount : ℝ
  earnings : ℝ
  dailyEarnings : Option ℝ

/-- `calculateEarnings` from `yieldUtils.ts`.  No argument validation is
performed by the source: `days` flows unchecked into `earnings / days`. -/
noncomputable def calculateEarnings (principal apy days : ℝ)
    (compounding : Bool := true) : EarningsResult :=
  let finalAmount : ℝ :=
    if compounding then
      let dailyRate := (1 + apy) ^ ((1 : ℝ) / 365) - 1
      principal * (1 + dailyRate) ^ days
    else
      let dailyRate := apy / 365
      principal * (1 + dailyRate * days)
  let earnings := finalAmount - principal
  { finalAmount := finalAmount
    earnings := earnings
    dailyEarnings := jsDiv earnings days }

end YieldUtils

namespace PointsUtils

/-- The `MULTIPLIER_TIERS` constant object of `pointsUtils.ts`. -/
structure MultiplierTiers where
  base : ℚ
  bronze : ℚ
  silver : ℚ
  gold : ℚ
  platinum : ℚ
  diamond : ℚ

/-- `MULTIPLIER_TIERS = { base: 1.0, bronze: 1.25, silver: 1.5, gold: 2.0,
platinum: 3.0, diamond: 5.0 }`. -/
def MULTIPLIER_TIERS : MultiplierTiers :=
  { base := 1.0, bronze := 1.25, silver := 1.5, gold := 2.0
    platinum := 3.0, diamond := 5.0 }

/-- One row of the `thresholds` table local to `getMultiplierTier`. -/
structure TierThreshold where
  tier : String
  sats : ℚ
  multiplier : ℚ

/-- Return shape of `getMultiplierTier`; the two optional fields are set
exactly when the loop index `i` is positive. -/
structure TierInfo where
  tier : String
  multiplier : ℚ
  nextTier : Option String := none
  satsToNextTier : Option ℚ := none
  deriving DecidableEq

/-- The descending `thresholds` table inside `getMultiplierTier`. -/
def thresholds : List TierThreshold :=
  [ ⟨"diamond", 1000000, MULTIPLIER_TIERS.diamond⟩,
    ⟨"platinum", 500000, MULTIPLIER_TIERS.platinum⟩,
    ⟨"gold", 100000, MULTIPLIER_TIERS.gold⟩,
    ⟨"silver", 25000, MULTIPLIER_TIERS.silver⟩,
    ⟨"bronze", 5000, MULTIPLIER_TIERS.bronze⟩,
    ⟨"base", 0, MULTIPLIER_TIERS.base⟩ ]

/-- The indexed `for` loop of `getMultiplierTier`: scan the table for the
first entry whose `sats` threshold `totalSats` meets or exceeds; `prev` is the
entry at index `i - 1` (present exactly when `i > 0`). -/
def findTier (totalSats : ℚ) (prev : Option TierThreshold) :
    List TierThreshold → TierInfo
  | [] => { tier := "base", multiplier := 1 }
  | t :: rest =>
    if t.sats ≤ totalSats then
      match prev with
      | none => { tier := t.tier, multiplier := t.multiplier }
      | some p =>
        { tier := t.tier, multiplier := t.multiplier
          nextTier := some p.tier, satsToNextTier := some (p.sats - totalSats) }
    else findTier totalSats (some t) rest

/-- `getMultiplierTier` from `pointsUtils.ts`. -/
def getMultiplierTier (totalSats : ℚ) : TierInfo :=
  findTier totalSats none thresholds

/-- `calculatePercentile` from `pointsUtils.ts`: sort ascending, count the
entries strictly below `userSats`, divide by the population size (a
JavaScript division: `none` models the `NaN` of an empty population) and
scale to percent. -/
def calculatePercentile (userSats : ℚ) (allUserSats : List ℚ) : Option ℚ :=
  let sorted := allUserSats.insertionSort (· ≤ ·)
  let rank := (sorted.filter (fun s => decide (s < userSats))).length
  (jsDiv (rank : ℚ) (sorted.length : ℚ)).map (fun r => r * 100)

/-- Return shape of `projectSatsEarnings`. -/
structure SatsProjection where
  projectedSats : ℚ
  projectedTier : String
  projectedMultiplier : ℚ

/-- The compounding day-by-day loop of `projectSatsEarnings`: each iteration
looks up the tier multiplier of the running balance and adds
`dailyEarningRate * multiplier`. -/
def projectLoop (dailyEarningRate : ℚ) : ℕ → ℚ → ℚ
  | 0, bal => bal
  | n + 1, bal =>
    projectLoop dailyEarningRate n
      (bal + dailyEarningRate * (getMultiplierTier bal).multiplier)

/-- `projectSatsEarnings` from `pointsUtils.ts`.  The JavaScript loop
`for (let i = 0; i < days; i++)` executes `⌈days⌉` times when `days ≥ 0` and
not at all otherwise, which `(max 0 ⌈days⌉).toNat` captures. -/
def projectSatsEarnings (currentBalance dailyEarningRate days : ℚ)
    (includeCompounding : Bool := false) : SatsProjection :=
  let projectedSats :=
    if includeCompounding then
      projectLoop dailyEarningRate (max 0 ⌈days⌉).toNat currentBalance
    else currentBalance + dailyEarningRate * days
  let tierInfo := getMultiplierTier projectedSats
  { projectedSats := projectedSats
    projectedTier := tierInfo.tier
    projectedMultiplier := tierInfo.multiplier }

/-- Return shape of `getSeasonTimeRemaining`. -/
structure SeasonTimeRemaining where
  days : ℤ
  hours : ℤ
  minutes : ℤ
  formatted : String
  deriving DecidableEq

/-- `getSeasonTimeRemaining` from `pointsUtils.ts`.  The source reads the
clock itself (`const now = new Date()`); `nowMs` is that ambient clock value
(milliseconds), made explicit by the embedding.  `endDateMs` is
`endDate.getTime()`. -/
def getSeasonTimeRemaining (endDateMs nowMs : ℤ) : SeasonTimeRemaining :=
  let diff := endDateMs - nowMs
  if diff ≤ 0 then
    { days := 0, hours := 0, minutes := 0, formatted := "Season Ended" }
  else
    let days := diff / (1000 * 60 * 60 * 24)
    let hours := diff % (1000 * 60 * 60 * 24) / (1000 * 60 * 60)
    let minutes := diff % (1000 * 60 * 60) / (1000 * 60)
    let f1 := if 0 < days then toString days ++ "d " else ""
    let f2 := if 0 < hours ∨ 0 < days then f1 ++ toString hours ++ "h " else f1
    let f3 := f2 ++ toString minutes ++ "m"
    { days := days, hours := hours, minutes := minutes, formatted := f3.trim }

end PointsUtils

namespace CooldownUtils

/-- The `CooldownStatus` interface of `cooldownUtils.ts` (whose declaration
documents `progress: number; // 0-100`). -/
structure CooldownStatus where
  isActive : Bool
  startTime : ℤ
  endTime : ℤ
  amount : ℤ
  canWithdraw : Bool
  remainingSeconds : ℤ
  remainingFormatted : String
  progress : ℚ
  deriving DecidableEq

/-- `formatDuration` from `cooldownUtils.ts`. -/
def formatDuration (seconds : ℤ) : String :=
  if seconds ≤ 0 then "Ready"
  else
    let days := seconds / 86400
    let hours := seconds % 86400 / 3600
    let minutes := seconds % 3600 / 60
    let secs := seconds % 60
    let parts : List String :=
      (if 0 < days then [toString days ++ "d"] else []) ++
      (if 0 < hours then [toString hours ++ "h"] else []) ++
      (if 0 < minutes then [toString minutes ++ "m"] else []) ++
      (if 0 < secs ∧ days = 0 then [toString secs ++ "s"] else [])
    if parts = [] then "0s" else String.intercalate " " parts

/-- `calculateCooldownStatus` from `cooldownUtils.ts`.  `now` is the value of
the optional `currentTimestamp` parameter, or the ambient `Date.now() / 1000`
clock value when that parameter is omitted (the source's
`currentTimestamp || Math.floor(Date.now() / 1000)`). -/
def calculateCooldownStatus (cooldownStart cooldownEnd : ℤ)
    (cooldownAmount : ℤ) (now : ℤ) : CooldownStatus :=
  let isActive := decide (0 < cooldownStart) && decide (0 < cooldownAmount)
  let canWithdraw := isActive && decide (cooldownEnd ≤ now)
  let remainingSeconds := max 0 (cooldownEnd - now)
  let totalDuration := cooldownEnd - cooldownStart
  let elapsed := now - cooldownStart
  let progress : ℚ :=
    if 0 < totalDuration then
      min 100 ((elapsed : ℚ) / (totalDuration : ℚ) * 100)
    else 0
  { isActive := isActive
    startTime := cooldownStart
    endTime := cooldownEnd
    amount := cooldownAmount
    canWithdraw := canWithdraw
    remainingSeconds := remainingSeconds
    remainingFormatted := formatDuration remainingSeconds
    progress := (round (progress * 100) : ℚ) / 100 }

end CooldownUtils

namespace EthenaTrigger

/-- `calculateLiquidationPrice` from `EthenaTrigger.node.ts` (its local
`marginRatio = 1 / leverage` is inlined). -/
def calculateLiquidationPrice (entryPrice leverage : ℚ) (isShort : Bool)
    (maintenanceMargin : ℚ := 0.005) : ℚ :=
  if isShort then entryPrice * (1 + 1 / leverage - maintenanceMargin)
  else entryPrice * (1 - 1 / leverage + maintenanceMargin)

/-- Return shape of `calculateCounterpartyRisk`.  The JavaScript
`Record<string, number>` object `distribution` is embedded as an
insertion-ordered association list, exactly how the object accumulates keys. -/
structure CounterpartyRisk where
  distribution : List (String × ℚ)
  concentration : ℚ
  largestExposure : String × ℚ

/-- `distribution[k] = (distribution[k] || 0) + v` on an insertion-ordered
object: add `v` to the entry holding key `k`, or append a fresh entry. -/
def addToDist : List (String × ℚ) → String → ℚ → List (String × ℚ)
  | [], k, v => [(k, v)]
  | (k', v') :: rest, k, v =>
    if k' = k then (k', v' + v) :: rest else (k', v') :: addToDist rest k v

/-- The `total` accumulator of `calculateCounterpartyRisk`:
`positions.reduce((sum, p) => sum + Math.abs(p.value), 0)`. -/
def totalAbsExposure (positions : List (String × ℚ)) : ℚ :=
  positions.foldl (fun sum p => sum + |p.2|) 0

/-- The `for (const pos of positions)` loop of `calculateCounterpartyRisk`
building the `distribution` object. -/
def buildDistribution (positions : List (String × ℚ)) (total : ℚ) :
    List (String × ℚ) :=
  positions.foldl
    (fun acc p => addToDist acc p.1 (if 0 < total then |p.2| / total * 100 else 0))
    []

/-- `calculateCounterpartyRisk` from `EthenaTrigger.node.ts`.  A position is
its `{exchange, value}` pair. -/
def calculateCounterpartyRisk (positions : List (String × ℚ)) :
    CounterpartyRisk :=
  let total := totalAbsExposure positions
  let distribution := buildDistribution positions total
  let concentration := (distribution.map (fun p => (p.2 / 100) ^ 2)).sum
  let sortedEntries := distribution.insertionSort (fun a b => b.2 ≤ a.2)
  { distribution := distribution
    concentration := concentration
    largestExposure := sortedEntries.headD ("", 0) }

/-- Sum of the absolute values of the positions held on one exchange: the
exchange's share of `totalAbsExposure` is this divided by the total. -/
def exchangeAbsExposure (positions : List (String × ℚ)) (e : String) : ℚ :=
  ((positions.filter (fun p => decide (p.1 = e))).map (fun p => |p.2|)).sum

/-- Sum of the values stored under key `k` in an association list (for a
list with `Nodup` keys: the value at `k`, or `0` when `k` is absent). -/
def keyValueSum (d : List (String × ℚ)) (k : String) : ℚ :=
  ((d.filter (fun p => decide (p.1 = k))).map (fun p => p.2)).sum

end EthenaTrigger

namespace YieldUtils

/-- Claim C1: for every apr in [-0.99, 5] and periodsPerYear n in {12, 365},
`apyToApr (aprToApy apr n) n` equals apr to within 1e-6 relative tolerance
(over the reals the round trip is exact, so the tolerance bound follows). -/
theorem apyToApr_aprToApy_roundTrip (apr : ℝ) (n : ℕ) (h1 : -0.99 ≤ apr)
    (h2 : apr ≤ 5) (hn : n = 12 ∨ n = 365) :
    apyToApr (aprToApy apr n) n = apr ∧
    |apyToApr (aprToApy apr n) n - apr| ≤ 1e-6 * |apr| := by
  have hn0 : (n : ℝ) ≠ 0 := by rcases hn with h | h <;> subst h <;> norm_num
  have hb : (0 : ℝ) < 1 + apr / n := by
    rcases hn with h | h <;> subst h <;> push_cast <;> linarith
  have key : apyToApr (aprToApy apr n) n = apr := by
    unfold apyToApr aprToApy
    have hbase : (1 : ℝ) + ((1 + apr / n) ^ (n : ℝ) - 1) = (1 + apr / n) ^ (n : ℝ) := by
      ring
    rw [hbase, ← Real.rpow_mul hb.le, mul_one_div, div_self hn0, Real.rpow_one,
      add_sub_cancel_left, mul_comm, div_mul_cancel₀ apr hn0]
  refine ⟨key, ?_⟩
  rw [key, sub_self, abs_zero]
  positivity

/-- Claim C1, witness: the round trip at apr = 1, n = 12. -/
theorem apyToApr_aprToApy_roundTrip_witness : apyToApr (aprToApy 1 12) 12 = 1 :=
  (apyToApr_aprToApy_roundTrip 1 12 (by norm_num) (by norm_num) (Or.inl rfl)).1

/-- Claim C2: `calculateEarnings` performs no argument validation; at
`days = 0` it silently returns a plain result record whose `dailyEarnings`
is the non-finite value `0 / 0` (`none` in the embedding, `NaN` in
JavaScript) instead of signalling an InvalidArgument error — its return
type has no error channel at all. -/
theorem calculateEarnings_zero_days_nan :
    calculateEarnings 1000 0.1 0 true =
      { finalAmount := 1000, earnings := 0, dailyEarnings := none } := by
  simp [calculateEarnings, jsDiv, Real.rpow_zero]

end YieldUtils

namespace CooldownUtils

/-- Claim C3: `calculateCooldownStatus` does NOT clamp progress below at 0:
at start = 100, end = 200, amount = 1, now = 0 it returns progress = -100,
contradicting `progress = clamp((now-start)/(end-start)*100, 0, 100)` (and
the `CooldownStatus` interface's own `// 0-100` documentation); the source
only applies `Math.min(100, ...)`. -/
theorem cooldown_progress_negative :
    (calculateCooldownStatus 100 200 1 0).progress = -100 ∧
    (calculateCooldownStatus 100 200 1 0).progress < 0 := by
  norm_num [calculateCooldownStatus, round_eq]

/-- Claim C8, counterexample: two calls of `calculateCooldownStatus` with
identical explicit arguments and the optional `currentTimestamp` omitted,
made at ambient clock values 150 and 160 (the embedded `Date.now() / 1000`
read), return different outputs. -/
theorem cooldown_clock_dependence :
    calculateCooldownStatus 100 200 1 150 ≠ calculateCooldownStatus 100 200 1 160 := by
  decide

/-- Claim C8 (amended): every engine function is deterministic in its
explicit arguments together with the ambient clock value; the clock-reading
functions (`calculateCooldownStatus` with the timestamp omitted,
`getSeasonTimeRemaining`) genuinely depend on that clock value, so two calls
with the parameter omitted need not agree. -/
theorem engine_deterministic_given_clock :
    (∀ s e a t, calculateCooldownStatus s e a t = calculateCooldownStatus s e a t) ∧
    (∀ d t, PointsUtils.getSeasonTimeRemaining d t = PointsUtils.getSeasonTimeRemaining d t) ∧
    (calculateCooldownStatus 100 200 1 150).remainingSeconds ≠
      (calculateCooldownStatus 100 200 1 160).remainingSeconds :=
  ⟨fun _ _ _ _ => rfl, fun _ _ => rfl, by decide⟩

end CooldownUtils

namespace PointsUtils

/-- Claim C9: `calculatePercentile` on the empty population divides `0 / 0`
unguarded: for every value it returns the non-finite `NaN` (`none` in the
embedding) — no defined fallback value and no error is raised. -/
theorem calculatePercentile_empty_population (userSats : ℚ) :
    calculatePercentile userSats [] = none := by
  simp [calculatePercentile, jsDiv, List.insertionSort]

/-- Claim C5: for every totalSats ≥ 0, `getMultiplierTier` returns the first
entry of the descending table {diamond ≥ 1000000 → 5, platinum ≥ 500000 → 3,
gold ≥ 100000 → 2, silver ≥ 25000 → 1.5, bronze ≥ 5000 → 1.25, base ≥ 0 → 1}
whose threshold the balance meets, with `nextTier` the tier one rank up and
`satsToNextTier` = next threshold − totalSats, both absent exactly for
diamond; and the two quoted examples. -/
theorem getMultiplierTier_table (s : ℚ) (hs : 0 ≤ s) :
    getMultiplierTier s =
      (if 1000000 ≤ s then { tier := "diamond", multiplier := 5 }
       else if 500000 ≤ s then
         { tier := "platinum", multiplier := 3, nextTier := some "diamond",
           satsToNextTier := some (1000000 - s) }
       else if 100000 ≤ s then
         { tier := "gold", multiplier := 2, nextTier := some "platinum",
           satsToNextTier := some (500000 - s) }
       else if 25000 ≤ s then
         { tier := "silver", multiplier := 1.5, nextTier := some "gold",
           satsToNextTier := some (100000 - s) }
       else if 5000 ≤ s then
         { tier := "bronze", multiplier := 1.25, nextTier := some "silver",
           satsToNextTier := some (25000 - s) }
       else
         { tier := "base", multiplier := 1, nextTier := some "bronze",
           satsToNextTier := some (5000 - s) } : TierInfo) ∧
    (getMultiplierTier 100000).tier = "gold" ∧
    (getMultiplierTier 4000).satsToNextTier = some 1000 := by
  refine ⟨?_, ?_, ?_⟩
  · simp only [getMultiplierTier, thresholds, findTier, MULTIPLIER_TIERS]
    split_ifs with h1 h2 h3 h4 h5 <;>
      simp_all [TierInfo.mk.injEq] <;> norm_num
  · norm_num [getMultiplierTier, thresholds, findTier, MULTIPLIER_TIERS]
  · norm_num [getMultiplierTier, thresholds, findTier, MULTIPLIER_TIERS]

/-- Claim C5, witness: the table theorem applied at totalSats = 0, whose
example conjuncts evaluate `getMultiplierTier` at 100000 and 4000. -/
theorem getMultiplierTier_table_witness :
    (getMultiplierTier 100000).tier = "gold" ∧
    (getMultiplierTier 4000).satsToNextTier = some 1000 :=
  ⟨(getMultiplierTier_table 0 le_rfl).2.1, (getMultiplierTier_table 0 le_rfl).2.2⟩

/-- Claim C6: for every value and non-empty population,
`calculatePercentile` returns (number of entries strictly below the value) /
(population size) × 100 — ties excluded — and the two quoted examples hold. -/
theorem calculatePercentile_strict_rank (v : ℚ) (pop : List ℚ) (hne : pop ≠ []) :
    calculatePercentile v pop =
      some (((pop.filter (fun s => decide (s < v))).length : ℚ) / (pop.length : ℚ) * 100) ∧
    calculatePercentile 350 [100, 200, 300, 400, 500] = some 60 ∧
    calculatePercentile 50 [100, 200, 300] = some 0 := by
  refine ⟨?_, ?_, ?_⟩
  · have hperm := List.perm_insertionSort (· ≤ ·) pop
    have hf : ((pop.insertionSort (· ≤ ·)).filter (fun s => decide (s < v))).length
        = (pop.filter (fun s => decide (s < v))).length :=
      (hperm.filter _).length_eq
    have hl : (pop.insertionSort (· ≤ ·)).length = pop.length := hperm.length_eq
    have hlen : ((pop.length : ℕ) : ℚ) ≠ 0 := by
      have := List.length_pos.mpr hne
      positivity
    simp only [calculatePercentile, hf, hl, jsDiv]
    rw [if_neg hlen]
    simp
  · norm_num [calculatePercentile, List.insertionSort, List.orderedInsert, jsDiv]
  · norm_num [calculatePercentile, List.insertionSort, List.orderedInsert, jsDiv]

/-- Claim C6, witness: the strict-rank formula applied to a concrete
population (its example conjuncts are the spec's two quoted evaluations). -/
theorem calculatePercentile_strict_rank_witness :
    calculatePercentile 350 [100, 200, 300, 400, 500] = some 60 :=
  (calculatePercentile_strict_rank 350 [100, 200, 300, 400, 500] (by simp)).2.1

/-- Every row of the multiplier table, and the fallthrough, carries a
multiplier of at least 1. -/
theorem one_le_getMultiplierTier (b : ℚ) : 1 ≤ (getMultiplierTier b).multiplier := by
  simp only [getMultiplierTier, thresholds, findTier, MULTIPLIER_TIERS]
  split_ifs <;> norm_num

/-- The compounding loop gains at least `rate` per iteration. -/
theorem projectLoop_ge (rate : ℚ) (hr : 0 ≤ rate) :
    ∀ (n : ℕ) (bal : ℚ), bal + rate * n ≤ projectLoop rate n bal := by
  intro n
  induction n with
  | zero => intro bal; simp [projectLoop]
  | succ k ih =>
    intro bal
    have hm := one_le_getMultiplierTier bal
    have hstep := ih (bal + rate * (getMultiplierTier bal).multiplier)
    have hmul : rate * 1 ≤ rate * (getMultiplierTier bal).multiplier :=
      mul_le_mul_of_nonneg_left hm hr
    have hdef : projectLoop rate (k + 1) bal
        = projectLoop rate k (bal + rate * (getMultiplierTier bal).multiplier) := rfl
    rw [hdef]
    push_cast
    linarith

/-- Claim C10: with compounding enabled, `projectSatsEarnings` returns at
least the non-compounding value `currentBalance + dailyEarningRate * days`,
because every tier multiplier of the fixed table is ≥ 1. -/
theorem projectSatsEarnings_compounding_ge (currentBalance dailyEarningRate days : ℚ)
    (hc : 0 ≤ currentBalance) (hr : 0 ≤ dailyEarningRate) (hd : 0 ≤ days) :
    currentBalance + dailyEarningRate * days ≤
      (projectSatsEarnings currentBalance dailyEarningRate days true).projectedSats := by
  have hceil : days ≤ (((max 0 ⌈days⌉).toNat : ℕ) : ℚ) := by
    have h1 : days ≤ ((⌈days⌉ : ℤ) : ℚ) := Int.le_ceil days
    have h2 : ((⌈days⌉ : ℤ) : ℚ) ≤ ((max 0 ⌈days⌉ : ℤ) : ℚ) := by
      exact_mod_cast le_max_right (0 : ℤ) ⌈days⌉
    have h3 : ((max 0 ⌈days⌉).toNat : ℤ) = max 0 ⌈days⌉ :=
      Int.toNat_of_nonneg (le_max_left _ _)
    have h4 : (((max 0 ⌈days⌉).toNat : ℕ) : ℚ) = ((max 0 ⌈days⌉ : ℤ) : ℚ) := by
      exact_mod_cast congrArg (fun z : ℤ => (z : ℚ)) h3
    linarith
  have hloop := projectLoop_ge dailyEarningRate hr (max 0 ⌈days⌉).toNat currentBalance
  have hmul : dailyEarningRate * days ≤ dailyEarningRate * (((max 0 ⌈days⌉).toNat : ℕ) : ℚ) :=
    mul_le_mul_of_nonneg_left hceil hr
  simp only [projectSatsEarnings, if_true]
  linarith

/-- Claim C10, witness: the compounding bound at balance 0, rate 1, 2 days. -/
theorem projectSatsEarnings_compounding_ge_witness :
    (0 : ℚ) + 1 * 2 ≤ (projectSatsEarnings 0 1 2 true).projectedSats :=
  projectSatsEarnings_compounding_ge 0 1 2 le_rfl (by norm_num) (by norm_num)

end PointsUtils

namespace EthenaTrigger

/-- Claim C4, counterexample: with maintenanceMargin = 1 (the claim
quantifies over every maintenanceMargin), entry 100 and leverages 2 < 4, the
higher leverage's liquidation price (175) is strictly FARTHER from entry
than the lower leverage's (150). -/
theorem calculateLiquidationPrice_margin_exceeds_inverse_leverage :
    calculateLiquidationPrice 100 2 false 1 = 150 ∧
    calculateLiquidationPrice 100 4 false 1 = 175 ∧
    ¬ (|calculateLiquidationPrice 100 4 false 1 - 100| <
        |calculateLiquidationPrice 100 2 false 1 - 100|) := by
  norm_num [calculateLiquidationPrice]

/-- Claim C4 (amended): `calculateLiquidationPrice` computes
entry×(1−1/L+m) for longs and entry×(1+1/L−m) for shorts, and for every
entryPrice > 0 and leverages L₂ > L₁ > 1 with maintenanceMargin < 1/L₂, the
liquidation price at the higher leverage is strictly closer to entry. -/
theorem calculateLiquidationPrice_closer (e L₁ L₂ m : ℚ) (s : Bool)
    (he : 0 < e) (h1 : 1 < L₁) (h12 : L₁ < L₂) (hm : m < 1 / L₂) :
    calculateLiquidationPrice e L₁ s m =
      (if s then e * (1 + 1 / L₁ - m) else e * (1 - 1 / L₁ + m)) ∧
    |calculateLiquidationPrice e L₂ s m - e| < |calculateLiquidationPrice e L₁ s m - e| := by
  have hL1 : (0 : ℚ) < L₁ := lt_trans one_pos h1
  have hL2 : (0 : ℚ) < L₂ := lt_trans hL1 h12
  have hinv : 1 / L₂ < 1 / L₁ := one_div_lt_one_div_of_lt hL1 h12
  have habs : ∀ L : ℚ, m < 1 / L →
      |calculateLiquidationPrice e L s m - e| = e * (1 / L - m) := by
    intro L hmL
    have hpos : 0 < e * (1 / L - m) := mul_pos he (by linarith)
    cases s with
    | false =>
      have heq : calculateLiquidationPrice e L false m - e = -(e * (1 / L - m)) := by
        simp only [calculateLiquidationPrice, Bool.false_eq_true, if_false]
        ring
      rw [heq, abs_neg, abs_of_pos hpos]
    | true =>
      have heq : calculateLiquidationPrice e L true m - e = e * (1 / L - m) := by
        simp only [calculateLiquidationPrice, if_true]
        ring
      rw [heq, abs_of_pos hpos]
  constructor
  · cases s <;> simp [calculateLiquidationPrice]
  · rw [habs L₁ (lt_trans hm hinv), habs L₂ hm]
    have hsub : 1 / L₂ - m < 1 / L₁ - m := by linarith
    exact mul_lt_mul_of_pos_left hsub he

/-- Claim C4, witness: entry 100, leverages 2 < 4, default margin 0.005. -/
theorem calculateLiquidationPrice_closer_witness :
    |calculateLiquidationPrice 100 4 false (1/200) - 100| <
      |calculateLiquidationPrice 100 2 false (1/200) - 100| :=
  (calculateLiquidationPrice_closer 100 2 4 (1/200) false (by norm_num) (by norm_num)
    (by norm_num) (by norm_num)).2

end EthenaTrigger


namespace EthenaTrigger

theorem foldl_add_abs (ps : List (String × ℚ)) :
    ∀ a : ℚ, ps.foldl (fun s p => s + |p.2|) a = a + (ps.map (fun p => |p.2|)).sum := by
  induction ps with
  | nil => intro a; simp
  | cons q rest ih => intro a; simp [ih]; ring

theorem totalAbs_eq_sum (ps : List (String × ℚ)) :
    totalAbsExposure ps = (ps.map (fun p => |p.2|)).sum := by
  simpa [totalAbsExposure] using foldl_add_abs ps 0

theorem keyValueSum_nil (k : String) : keyValueSum [] k = 0 := rfl

theorem keyValueSum_cons (q : String × ℚ) (rest : List (String × ℚ)) (k : String) :
    keyValueSum (q :: rest) k = (if q.1 = k then q.2 else 0) + keyValueSum rest k := by
  by_cases h : q.1 = k <;> simp [keyValueSum, List.filter_cons, h]

theorem keyValueSum_eq_zero (d : List (String × ℚ)) (k : String)
    (hk : k ∉ d.map Prod.fst) : keyValueSum d k = 0 := by
  induction d with
  | nil => rfl
  | cons q rest ih =>
    simp only [List.map_cons, List.mem_cons, not_or] at hk
    rw [keyValueSum_cons, if_neg (fun h => hk.1 h.symm), ih hk.2, add_zero]

theorem keyValueSum_addToDist (d : List (String × ℚ)) (k : String) (v : ℚ) (q : String) :
    keyValueSum (addToDist d k v) q = keyValueSum d q + (if k = q then v else 0) := by
  induction d with
  | nil =>
    by_cases h : k = q <;> simp [addToDist, keyValueSum_cons, keyValueSum_nil, h]
  | cons e rest ih =>
    by_cases h : e.1 = k
    · rw [show addToDist (e :: rest) k v = (e.1, e.2 + v) :: rest by simp [addToDist, h]]
      rw [keyValueSum_cons, keyValueSum_cons]
      by_cases h2 : e.1 = q
      · rw [if_pos h2, if_pos h2, if_pos (h ▸ h2)]
        ring
      · rw [if_neg h2, if_neg h2, if_neg (fun hk => h2 (h.symm ▸ hk))]
        ring
    · rw [show addToDist (e :: rest) k v = e :: addToDist rest k v by simp [addToDist, h]]
      rw [keyValueSum_cons, keyValueSum_cons, ih]
      ring

theorem keys_addToDist (d : List (String × ℚ)) (k : String) (v : ℚ) :
    (addToDist d k v).map Prod.fst =
      if k ∈ d.map Prod.fst then d.map Prod.fst else d.map Prod.fst ++ [k] := by
  induction d with
  | nil => simp [addToDist]
  | cons e rest ih =>
    by_cases h : e.1 = k
    · rw [show addToDist (e :: rest) k v = (e.1, e.2 + v) :: rest by simp [addToDist, h]]
      simp [h]
    · rw [show addToDist (e :: rest) k v = e :: addToDist rest k v by simp [addToDist, h]]
      have hne : ¬ (k = e.1) := fun hk => h hk.symm
      by_cases hm : k ∈ rest.map Prod.fst
      · simp [ih, hm, hne]
      · simp [ih, hm, hne]

theorem keys_addToDist_nodup (d : List (String × ℚ)) (k : String) (v : ℚ)
    (hd : (d.map Prod.fst).Nodup) : ((addToDist d k v).map Prod.fst).Nodup := by
  rw [keys_addToDist]
  by_cases hm : k ∈ d.map Prod.fst
  · rwa [if_pos hm]
  · rw [if_neg hm]
    exact hd.append (List.nodup_singleton k) (List.disjoint_singleton.mpr hm)

end EthenaTrigger


namespace EthenaTrigger

theorem buildFold_keyValueSum (total : ℚ) (ps : List (String × ℚ)) :
    ∀ (acc : List (String × ℚ)) (k : String),
      keyValueSum
        (ps.foldl (fun acc p =>
          addToDist acc p.1 (if 0 < total then |p.2| / total * 100 else 0)) acc) k
      = keyValueSum acc k +
        ((ps.filter (fun p => decide (p.1 = k))).map
          (fun p => if 0 < total then |p.2| / total * 100 else 0)).sum := by
  induction ps with
  | nil => intro acc k; simp
  | cons q rest ih =>
    intro acc k
    rw [List.foldl_cons, ih, keyValueSum_addToDist, List.filter_cons]
    by_cases h : q.1 = k
    · rw [if_pos (by simp [h] : decide (q.1 = k) = true), if_pos h]
      simp only [List.map_cons, List.sum_cons]
      ring
    · rw [if_neg (by simp [h] : ¬ decide (q.1 = k) = true), if_neg h]
      ring

theorem buildFold_keys_mem (total : ℚ) (ps : List (String × ℚ)) :
    ∀ (acc : List (String × ℚ)) (k : String),
      k ∈ (ps.foldl (fun acc p =>
          addToDist acc p.1 (if 0 < total then |p.2| / total * 100 else 0)) acc).map Prod.fst
      ↔ k ∈ acc.map Prod.fst ∨ k ∈ ps.map Prod.fst := by
  induction ps with
  | nil => intro acc k; simp
  | cons q rest ih =>
    intro acc k
    rw [List.foldl_cons, ih, keys_addToDist]
    by_cases hm : q.1 ∈ acc.map Prod.fst
    · rw [if_pos hm]
      have hsub : k = q.1 → k ∈ acc.map Prod.fst := fun h => h ▸ hm
      simp only [List.map_cons, List.mem_cons]
      tauto
    · rw [if_neg hm]
      simp only [List.mem_append, List.mem_singleton, List.map_cons, List.mem_cons]
      tauto

theorem buildFold_keys_nodup (total : ℚ) (ps : List (String × ℚ)) :
    ∀ (acc : List (String × ℚ)), (acc.map Prod.fst).Nodup →
      ((ps.foldl (fun acc p =>
          addToDist acc p.1 (if 0 < total then |p.2| / total * 100 else 0)) acc).map
        Prod.fst).Nodup := by
  induction ps with
  | nil => intro acc h; simpa using h
  | cons q rest ih =>
    intro acc h
    rw [List.foldl_cons]
    exact ih _ (keys_addToDist_nodup _ _ _ h)

theorem buildDistribution_keyValueSum (ps : List (String × ℚ)) (total : ℚ) (k : String) :
    keyValueSum (buildDistribution ps total) k =
      ((ps.filter (fun p => decide (p.1 = k))).map
        (fun p => if 0 < total then |p.2| / total * 100 else 0)).sum := by
  rw [buildDistribution, buildFold_keyValueSum, keyValueSum_nil, zero_add]

theorem buildDistribution_keys_mem (ps : List (String × ℚ)) (total : ℚ) (k : String) :
    k ∈ (buildDistribution ps total).map Prod.fst ↔ k ∈ ps.map Prod.fst := by
  rw [buildDistribution, buildFold_keys_mem]
  simp

theorem buildDistribution_keys_nodup (ps : List (String × ℚ)) (total : ℚ) :
    ((buildDistribution ps total).map Prod.fst).Nodup := by
  rw [buildDistribution]
  exact buildFold_keys_nodup total ps [] (by simp)

end EthenaTrigger


namespace EthenaTrigger

theorem sum_map_entries_eq_keys (g : ℚ → ℚ) :
    ∀ d : List (String × ℚ), (d.map Prod.fst).Nodup →
      (d.map (fun p => g p.2)).sum =
        ((d.map Prod.fst).map (fun k => g (keyValueSum d k))).sum := by
  intro d
  induction d with
  | nil => intro _; simp
  | cons q rest ih =>
    intro hd
    simp only [List.map_cons, List.mem_cons, List.nodup_cons] at hd
    obtain ⟨hq, hrest⟩ := hd
    have h1 : keyValueSum (q :: rest) q.1 = q.2 := by
      rw [keyValueSum_cons, if_pos rfl,
        keyValueSum_eq_zero rest q.1 hq, add_zero]
    have h2 : ∀ k ∈ rest.map Prod.fst, keyValueSum (q :: rest) k = keyValueSum rest k := by
      intro k hk
      have hne : ¬ q.1 = k := fun h => hq (by rw [h]; exact hk)
      rw [keyValueSum_cons, if_neg hne, zero_add]
    simp only [List.map_cons, List.sum_cons, h1]
    rw [List.map_congr_left (fun k hk => congrArg g (h2 k hk)), ih hrest]

theorem sum_map_indicator (a : String) (c : ℚ) :
    ∀ ks : List String, ks.Nodup → a ∈ ks →
      (ks.map (fun k => if a = k then c else 0)).sum = c := by
  intro ks
  induction ks with
  | nil => intro _ h; simp at h
  | cons k rest ih =>
    intro hnd hmem
    simp only [List.nodup_cons] at hnd
    simp only [List.map_cons, List.sum_cons]
    rcases List.mem_cons.mp hmem with h | h
    · rw [if_pos h]
      have hzero : ∀ x ∈ rest.map (fun k => if a = k then c else 0), x = 0 := by
        intro x hx
        rcases List.mem_map.mp hx with ⟨y, hy, rfl⟩
        have hky : ¬ a = y := by
          intro hay
          exact hnd.1 (by rw [← h, hay]; exact hy)
        rw [if_neg hky]
      rw [List.sum_eq_zero hzero, add_zero]
    · have hkr : ¬ a = k := by
        intro hak
        exact hnd.1 (by rw [← hak]; exact h)
      rw [if_neg hkr, ih hnd.2 h, zero_add]

theorem sum_map_add_split (A B : String → ℚ) :
    ∀ ks : List String,
      (ks.map (fun k => A k + B k)).sum = (ks.map A).sum + (ks.map B).sum := by
  intro ks
  induction ks with
  | nil => simp
  | cons k rest ih => simp [ih]; ring

theorem sum_filter_partition (f : String × ℚ → ℚ) :
    ∀ (ps : List (String × ℚ)) (ks : List String), ks.Nodup →
      (∀ p ∈ ps, p.1 ∈ ks) →
      (ks.map (fun k => ((ps.filter (fun p => decide (p.1 = k))).map f).sum)).sum
        = (ps.map f).sum := by
  intro ps
  induction ps with
  | nil => intro ks _ _; simp
  | cons q rest ih =>
    intro ks hnd hmem
    have hq : q.1 ∈ ks := hmem q (List.mem_cons_self q rest)
    have hrest : ∀ p ∈ rest, p.1 ∈ ks := fun p hp => hmem p (List.mem_cons_of_mem q hp)
    have hsplit : ∀ k, ((List.filter (fun p => decide (p.1 = k)) (q :: rest)).map f).sum
        = (if q.1 = k then f q else 0) +
          ((rest.filter (fun p => decide (p.1 = k))).map f).sum := by
      intro k
      rw [List.filter_cons]
      by_cases h : q.1 = k
      · rw [if_pos (by simp [h] : decide (q.1 = k) = true), if_pos h]
        simp
      · rw [if_neg (by simp [h] : ¬ decide (q.1 = k) = true), if_neg h, zero_add]
    rw [List.map_congr_left (fun k _ => hsplit k), sum_map_add_split,
      sum_map_indicator q.1 (f q) ks hnd hq, ih ks hnd hrest]
    simp

theorem sq_sum_le_length_mul_sum_sq :
    ∀ l : List ℚ, l.sum ^ 2 ≤ l.length * (l.map (fun x => x ^ 2)).sum := by
  intro l
  induction l with
  | nil => simp
  | cons x rest ih =>
    by_cases hr : rest = []
    · subst hr; simp
    · have hlen : 0 < rest.length := List.length_pos.mpr hr
      have hn : (0 : ℚ) < (rest.length : ℚ) := by exact_mod_cast hlen
      simp only [List.sum_cons, List.map_cons, List.length_cons]
      push_cast
      have hkey : (rest.length : ℚ) *
            (((rest.length : ℚ) + 1) * (x ^ 2 + (rest.map (fun x => x ^ 2)).sum)
              - (x + rest.sum) ^ 2)
          = ((rest.length : ℚ) * x - rest.sum) ^ 2 +
            ((rest.length : ℚ) + 1) *
              ((rest.length : ℚ) * (rest.map (fun x => x ^ 2)).sum - rest.sum ^ 2) := by
        ring
      have hB : (0 : ℚ) ≤
          (rest.length : ℚ) * (rest.map (fun x => x ^ 2)).sum - rest.sum ^ 2 := by
        linarith [ih]
      have hAB : (0 : ℚ) ≤
          ((rest.length : ℚ) + 1) *
            ((rest.length : ℚ) * (rest.map (fun x => x ^ 2)).sum - rest.sum ^ 2) :=
        mul_nonneg (by linarith) hB
      nlinarith [hkey, sq_nonneg ((rest.length : ℚ) * x - rest.sum), hAB, hn]

theorem sum_sq_le_sq_sum (l : List ℚ) (h : ∀ x ∈ l, 0 ≤ x) :
    (l.map (fun x => x ^ 2)).sum ≤ l.sum ^ 2 := by
  induction l with
  | nil => simp
  | cons x rest ih =>
    simp only [List.sum_cons, List.map_cons]
    have hx : 0 ≤ x := h x (List.mem_cons_self _ _)
    have hrest : ∀ y ∈ rest, 0 ≤ y := fun y hy => h y (List.mem_cons_of_mem _ hy)
    have hS : 0 ≤ rest.sum := List.sum_nonneg hrest
    have := ih hrest
    nlinarith

end EthenaTrigger


namespace EthenaTrigger

theorem sum_map_div {α : Type} (l : List α) (f : α → ℚ) (t : ℚ) :
    (l.map (fun x => f x / t)).sum = (l.map f).sum / t := by
  induction l with
  | nil => simp
  | cons x rest ih => simp [ih]; ring

theorem sum_map_scale (l : List (String × ℚ)) (t : ℚ) :
    (l.map (fun p => |p.2| / t * 100)).sum = (l.map (fun p => |p.2|)).sum / t * 100 := by
  induction l with
  | nil => simp
  | cons x rest ih => simp [ih]; ring

theorem exchangeAbs_nonneg (ps : List (String × ℚ)) (k : String) :
    0 ≤ exchangeAbsExposure ps k := by
  refine List.sum_nonneg ?_
  intro x hx
  rcases List.mem_map.mp hx with ⟨p, _, rfl⟩
  exact abs_nonneg _

/-- Claim C7 (amended): for every non-empty position list with positive
total absolute exposure, the concentration returned by
`calculateCounterpartyRisk` equals the sum, over the distinct exchanges, of
the squared fractional share of total absolute exposure (the
Herfindahl-Hirschman index), and lies in [1/n, 1] for n the number of
distinct exchanges. -/
theorem calculateCounterpartyRisk_concentration (ps : List (String × ℚ))
    (hne : ps ≠ []) (hpos : 0 < totalAbsExposure ps) :
    (calculateCounterpartyRisk ps).concentration =
      (((ps.map Prod.fst).dedup).map
        (fun k => (exchangeAbsExposure ps k / totalAbsExposure ps) ^ 2)).sum ∧
    1 / (((ps.map Prod.fst).dedup.length : ℕ) : ℚ) ≤
      (calculateCounterpartyRisk ps).concentration ∧
    (calculateCounterpartyRisk ps).concentration ≤ 1 := by
  have hnd : ((buildDistribution ps (totalAbsExposure ps)).map Prod.fst).Nodup :=
    buildDistribution_keys_nodup ps (totalAbsExposure ps)
  have hperm : ((buildDistribution ps (totalAbsExposure ps)).map Prod.fst).Perm
      ((ps.map Prod.fst).dedup) := by
    refine (List.perm_ext_iff_of_nodup hnd (List.nodup_dedup _)).mpr ?_
    intro a
    rw [buildDistribution_keys_mem, List.mem_dedup]
  have hval : ∀ k, keyValueSum (buildDistribution ps (totalAbsExposure ps)) k =
      exchangeAbsExposure ps k / totalAbsExposure ps * 100 := by
    intro k
    rw [buildDistribution_keyValueSum]
    have hmapeq : (ps.filter (fun p => decide (p.1 = k))).map
          (fun p => if 0 < totalAbsExposure ps then |p.2| / totalAbsExposure ps * 100 else 0)
        = (ps.filter (fun p => decide (p.1 = k))).map
          (fun p => |p.2| / totalAbsExposure ps * 100) :=
      List.map_congr_left (fun p _ => if_pos hpos)
    rw [hmapeq, sum_map_scale, exchangeAbsExposure]
  have hconc : (calculateCounterpartyRisk ps).concentration =
      ((buildDistribution ps (totalAbsExposure ps)).map (fun p => (p.2 / 100) ^ 2)).sum := rfl
  have h1 : (calculateCounterpartyRisk ps).concentration =
      (((buildDistribution ps (totalAbsExposure ps)).map Prod.fst).map
        (fun k => (exchangeAbsExposure ps k / totalAbsExposure ps) ^ 2)).sum := by
    rw [hconc]
    have hg := sum_map_entries_eq_keys (fun v => (v / 100) ^ 2)
      (buildDistribution ps (totalAbsExposure ps)) hnd
    simp only at hg
    rw [hg]
    refine congrArg List.sum (List.map_congr_left ?_)
    intro k _
    rw [hval k]
    ring
  have h2 : (calculateCounterpartyRisk ps).concentration =
      (((ps.map Prod.fst).dedup).map
        (fun k => (exchangeAbsExposure ps k / totalAbsExposure ps) ^ 2)).sum := by
    rw [h1]
    exact (hperm.map _).sum_eq
  have hshares : (((ps.map Prod.fst).dedup).map
      (fun k => exchangeAbsExposure ps k / totalAbsExposure ps)).sum = 1 := by
    have hpart := sum_filter_partition (fun p => |p.2|) ps ((ps.map Prod.fst).dedup)
      (List.nodup_dedup _)
      (fun p hp => List.mem_dedup.mpr (List.mem_map_of_mem Prod.fst hp))
    rw [sum_map_div]
    have htot : (((ps.map Prod.fst).dedup).map (fun k => exchangeAbsExposure ps k)).sum
        = totalAbsExposure ps := by
      rw [totalAbs_eq_sum]
      simpa [exchangeAbsExposure] using hpart
    rw [htot, div_self (ne_of_gt hpos)]
  have hnonneg : ∀ x ∈ ((ps.map Prod.fst).dedup).map
      (fun k => exchangeAbsExposure ps k / totalAbsExposure ps), 0 ≤ x := by
    intro x hx
    rcases List.mem_map.mp hx with ⟨k, _, rfl⟩
    exact div_nonneg (exchangeAbs_nonneg ps k) (le_of_lt hpos)
  have hsq : (((ps.map Prod.fst).dedup).map
        (fun k => (exchangeAbsExposure ps k / totalAbsExposure ps) ^ 2)).sum
      = ((((ps.map Prod.fst).dedup).map
        (fun k => exchangeAbsExposure ps k / totalAbsExposure ps)).map
          (fun x => x ^ 2)).sum := by
    rw [List.map_map]
    rfl
  refine ⟨h2, ?_, ?_⟩
  · have hlenpos : 0 < (ps.map Prod.fst).dedup.length := by
      rcases List.exists_mem_of_ne_nil ps hne with ⟨p, hp⟩
      exact List.length_pos.mpr
        (List.ne_nil_of_mem (List.mem_dedup.mpr (List.mem_map_of_mem Prod.fst hp)))
    have hnq : (0 : ℚ) < (((ps.map Prod.fst).dedup.length : ℕ) : ℚ) := by
      exact_mod_cast hlenpos
    have hcs := sq_sum_le_length_mul_sum_sq (((ps.map Prod.fst).dedup).map
      (fun k => exchangeAbsExposure ps k / totalAbsExposure ps))
    rw [hshares, List.length_map, one_pow] at hcs
    rw [h2, hsq, div_le_iff hnq, mul_comm]
    exact hcs
  · have hub := sum_sq_le_sq_sum (((ps.map Prod.fst).dedup).map
      (fun k => exchangeAbsExposure ps k / totalAbsExposure ps)) hnonneg
    rw [hshares, one_pow] at hub
    rw [h2, hsq]
    exact hub

end EthenaTrigger


namespace EthenaTrigger

/-- Claim C7, counterexample: the non-empty position list [("a", 0)] has
total absolute exposure 0, so every percentage share is the 0 fallback and
the concentration is 0, below the claimed lower bound 1/n = 1/1. -/
theorem calculateCounterpartyRisk_zero_exposure :
    (calculateCounterpartyRisk [("a", 0)]).concentration = 0 ∧
    ([("a", (0 : ℚ))].map Prod.fst).dedup.length = 1 ∧
    ¬ ((1 : ℚ) / 1 ≤ (calculateCounterpartyRisk [("a", 0)]).concentration) := by
  have hc : (calculateCounterpartyRisk [("a", 0)]).concentration = 0 := by
    norm_num [calculateCounterpartyRisk, buildDistribution, addToDist, totalAbsExposure]
  refine ⟨hc, by rfl, ?_⟩
  rw [hc]
  norm_num

/-- Claim C7, witness: two exchanges with equal exposure give
concentration 1/2 ∈ [1/2, 1]. -/
theorem calculateCounterpartyRisk_concentration_witness :
    (1 : ℚ) / 2 ≤ (calculateCounterpartyRisk [("a", 1), ("b", 1)]).concentration ∧
    (calculateCounterpartyRisk [("a", 1), ("b", 1)]).concentration ≤ 1 := by
  have h := calculateCounterpartyRisk_concentration [("a", 1), ("b", 1)] (by simp)
    (by norm_num [totalAbsExposure])
  have hn : ([("a", (1 : ℚ)), ("b", 1)].map Prod.fst).dedup.length = 2 := by rfl
  refine ⟨?_, h.2.2⟩
  have hlow := h.2.1
  rw [hn] at hlow
  exact_mod_cast hlow

end EthenaTrigger
